import Mathlib

/-!
# go-intelowl: the analyzer service (`gointelowl/analyzer.go`)

A shallow embedding of `AnalyzerService.GetConfigs` and
`AnalyzerService.HealthCheck`, together with the parts of the Go runtime they
rest on (`encoding/json.Unmarshal` for the three target types involved,
`fmt.Sprintf` with `%s` verbs, `sort.Strings`, map insertion, indexing and
`range`), followed by theorems about the two methods.

Conventions of the embedding.

* Go's `string` is `String`.  Strings produced by the JSON decoder are valid
  UTF-8, on which Go's byte-wise `<` coincides with the code-point order that
  `String` carries.
* A response body (`[]byte`) is represented by the outcome of the syntax scan
  `json.Unmarshal` performs first (`checkValid`): `Payload.malformed` for bytes
  that are not one JSON text, `Payload.wellFormed v` for bytes that spell the
  value `v`, object members kept in the order they are written.
* The client methods `buildRequest` and `newRequest` live in another file of
  the package.  They are taken as arbitrary functions of the history of client
  operations (`World`); every invocation is appended to that history.
* A Go result pair `(value, error)` is a Lean pair whose second component is
  `none` for a nil error.
* A `[]string` keeps, next to its elements, what its backing array holds
  beyond its length: `json` decodes an array into the positions a slice
  already has, so a repeated member can bring old strings back.
-/

namespace gointelowl

/-! ## Errors -/

/-- Go `error` values that can reach the callers of the analyzer service. -/
inductive GoError where
  /-- A `*json.SyntaxError`: the bytes are not a JSON text. -/
  | SyntaxError
  /-- A `*json.UnmarshalTypeError`: JSON value kind `Value` cannot be stored in
  a Go value of type `GoType`. -/
  | UnmarshalTypeError (Value : String) (GoType : String)
  /-- An API level failure reported by the executor, carrying the HTTP status
  code and the message. -/
  | IntelOwlError (StatusCode : Nat) (Message : String)
  /-- Any other error, identified by its message (`errors.New`, URL parsing
  failures, transport failures). -/
  | errorString (msg : String)
  deriving DecidableEq, Repr

/-- The errors `json.Unmarshal` produces. -/
def GoError.isDecodeError : GoError → Bool
  | .SyntaxError => true
  | .UnmarshalTypeError _ _ => true
  | _ => false

/-! ## JSON values and payloads -/

/-- A JSON value as written on the wire; object members in wire order, with
repeated names kept. -/
inductive JSON where
  | null
  | bool (b : Bool)
  | num (literal : String)
  | str (s : String)
  | arr (elems : List JSON)
  | obj (members : List (String × JSON))

/-- The name `json.UnmarshalTypeError.Value` gives to a JSON value. -/
def JSON.kind : JSON → String
  | .null => "null"
  | .bool _ => "bool"
  | .num _ => "number"
  | .str _ => "string"
  | .arr _ => "array"
  | .obj _ => "object"

/-- The bytes of a response body, seen through `json`'s syntax scan. -/
inductive Payload where
  | malformed
  | wellFormed (v : JSON)

/-! ## `encoding/json`: storing a JSON value into a Go value

Each `store…` function takes the JSON value and the current content of the
destination and returns the new content, or the first `UnmarshalTypeError`.
JSON `null` leaves booleans, strings and structs untouched and sets slices and
maps to nil. -/

/-- Store into a `bool`. -/
def storeBool (v : JSON) (old : Bool) : Except GoError Bool :=
  match v with
  | .null => .ok old
  | .bool b => .ok b
  | w => .error (.UnmarshalTypeError w.kind "bool")

/-- Store into a `string`. -/
def storeString (v : JSON) (old : String) : Except GoError String :=
  match v with
  | .null => .ok old
  | .str s => .ok s
  | w => .error (.UnmarshalTypeError w.kind "string")

/-- A Go `[]string`: the elements up to its length, the strings its backing
array holds beyond the length (a later decode into the same slice brings them
back when it lengthens the slice), and whether the slice is nil.  Positions of
the backing array beyond `elems ++ spare` hold the zero string. -/
structure StringSlice where
  elems : List String
  spare : List String
  isNil : Bool
  deriving DecidableEq, Repr

/-- The nil slice, zero value of `[]string`. -/
def StringSlice.nil : StringSlice := { elems := [], spare := [], isNil := true }

/-- Store the elements of a JSON array, in order, into the positions of a
backing array: element `i` is stored into what position `i` holds, the zero
string where the backing array has run out. -/
def storeElems : List JSON → List String → Except GoError (List String)
  | [], _ => .ok []
  | e :: es, backing => do
    let x ← storeString e (backing.headD "")
    let xs ← storeElems es backing.tail
    pure (x :: xs)

/-- Store into a `[]string`.  Null makes the slice nil.  An array is decoded
element by element into the positions the slice already has, lengthening it
within its backing array as needed; the slice then gets the length of the
array, and what the backing array holds beyond stays there.  The empty array
gives a new empty slice. -/
def storeStringSlice (v : JSON) (old : StringSlice) : Except GoError StringSlice :=
  match v with
  | .null => .ok StringSlice.nil
  | .arr [] => .ok { elems := [], spare := [], isNil := false }
  | .arr (e :: es) => do
    let xs ← storeElems (e :: es) (old.elems ++ old.spare)
    pure { elems := xs, spare := (old.elems ++ old.spare).drop (e :: es).length, isNil := false }
  | w => .error (.UnmarshalTypeError w.kind "[]string")

/-- The rune `foldRune` picks for the runes that fold to an ASCII letter:
lower case ASCII, U+017F (long s) and U+212A (Kelvin sign).  Other runes fold
among non-ASCII runes only and are left in place. -/
def foldRune (c : Char) : Char :=
  if c.toNat = 0x17F then 'S'
  else if c.toNat = 0x212A then 'K'
  else c.toUpper

/-- The key under which `json` indexes a field name for case-insensitive
matching (`foldName`). -/
def foldName (s : String) : String := String.mk (s.data.map foldRune)

/-- The Go types of the struct fields involved. -/
inductive GoKind where
  | bool
  | string
  | stringSlice
  deriving DecidableEq, Repr

/-- The values of a Go type. -/
def GoKind.type : GoKind → Type
  | .bool => Bool
  | .string => String
  | .stringSlice => StringSlice

/-- Store into a value of the given Go type. -/
def storeKind : (k : GoKind) → JSON → k.type → Except GoError k.type
  | .bool, v, old => storeBool v old
  | .string, v, old => storeString v old
  | .stringSlice, v, old => storeStringSlice v old

/-- A struct field visible to `json`: its name in JSON, its Go type, and how
it is read and written in a struct value. -/
structure Field (T : Type) where
  name : String
  kind : GoKind
  get : T → kind.type
  set : T → kind.type → T

/-- Store a JSON value into one field of a struct. -/
def Field.store {T : Type} (f : Field T) (v : JSON) (t : T) : Except GoError T := do
  let x ← storeKind f.kind v (f.get t)
  pure (f.set t x)

/-- The field an object member named `key` goes to: an exact match of the
name if there is one, otherwise the first field whose folded name equals the
folded key. -/
def findField {T : Type} (fields : List (Field T)) (key : String) : Option (Field T) :=
  match fields.find? (fun f => f.name == key) with
  | some f => some f
  | none => fields.find? (fun f => foldName f.name == foldName key)

/-- Store the members of a JSON object into a struct, in wire order; members
that match no field are skipped. -/
def storeMembers {T : Type} (fields : List (Field T)) (members : List (String × JSON))
    (t : T) : Except GoError T :=
  members.foldlM
    (fun acc kv =>
      match findField fields kv.1 with
      | some f => f.store kv.2 acc
      | none => .ok acc)
    t

/-- Store into a struct whose Go type is called `typeName`. -/
def storeStruct {T : Type} (typeName : String) (fields : List (Field T)) (v : JSON)
    (old : T) : Except GoError T :=
  match v with
  | .null => .ok old
  | .obj members => storeMembers fields members old
  | w => .error (.UnmarshalTypeError w.kind typeName)

/-! ## The record types -/

/-- Modelled from the spec: `BaseConfigurationType` is declared in another
file of the package; the spec gives it the descriptive fields common to all
configuration kinds: name, description and the disabled flag. -/
structure BaseConfigurationType where
  Name : String
  Description : String
  Disabled : Bool
  deriving DecidableEq, Repr

/-- The struct `AnalyzerConfig` (analyzer.go:13-24); the field `Type` is spelled `Type_`. -/
structure AnalyzerConfig where
  BaseConfigurationType : BaseConfigurationType
  Type_ : String
  ExternalService : Bool
  LeaksInfo : Bool
  DockerBased : Bool
  RunHash : Bool
  RunHashType : String
  SupportedFiletypes : StringSlice
  NotSupportedFiletypes : StringSlice
  ObservableSupported : StringSlice
  deriving DecidableEq, Repr

/-- The zero value of `AnalyzerConfig`. -/
def AnalyzerConfig.zero : AnalyzerConfig :=
  { BaseConfigurationType := { Name := "", Description := "", Disabled := false }
    Type_ := "", ExternalService := false, LeaksInfo := false, DockerBased := false
    RunHash := false, RunHashType := "", SupportedFiletypes := StringSlice.nil
    NotSupportedFiletypes := StringSlice.nil, ObservableSupported := StringSlice.nil }

/-- The JSON fields of `AnalyzerConfig`, in index order: the promoted fields
of the embedded struct, then the struct tags of analyzer.go:15-23. -/
def analyzerConfigFields : List (Field AnalyzerConfig) :=
  [ { name := "name", kind := .string
      get := fun c => c.BaseConfigurationType.Name
      set := fun c x =>
        { c with BaseConfigurationType := { c.BaseConfigurationType with Name := x } } },
    { name := "description", kind := .string
      get := fun c => c.BaseConfigurationType.Description
      set := fun c x =>
        { c with BaseConfigurationType := { c.BaseConfigurationType with Description := x } } },
    { name := "disabled", kind := .bool
      get := fun c => c.BaseConfigurationType.Disabled
      set := fun c x =>
        { c with BaseConfigurationType := { c.BaseConfigurationType with Disabled := x } } },
    { name := "type", kind := .string
      get := fun c => c.Type_, set := fun c x => { c with Type_ := x } },
    { name := "external_service", kind := .bool
      get := fun c => c.ExternalService, set := fun c x => { c with ExternalService := x } },
    { name := "leaks_info", kind := .bool
      get := fun c => c.LeaksInfo, set := fun c x => { c with LeaksInfo := x } },
    { name := "docker_based", kind := .bool
      get := fun c => c.DockerBased, set := fun c x => { c with DockerBased := x } },
    { name := "run_hash", kind := .bool
      get := fun c => c.RunHash, set := fun c x => { c with RunHash := x } },
    { name := "run_hash_type", kind := .string
      get := fun c => c.RunHashType, set := fun c x => { c with RunHashType := x } },
    { name := "supported_filetypes", kind := .stringSlice
      get := fun c => c.SupportedFiletypes
      set := fun c x => { c with SupportedFiletypes := x } },
    { name := "not_supported_filetypes", kind := .stringSlice
      get := fun c => c.NotSupportedFiletypes
      set := fun c x => { c with NotSupportedFiletypes := x } },
    { name := "observable_supported", kind := .stringSlice
      get := fun c => c.ObservableSupported
      set := fun c x => { c with ObservableSupported := x } } ]

/-- Store into an `AnalyzerConfig`. -/
def storeAnalyzerConfig (v : JSON) (old : AnalyzerConfig) : Except GoError AnalyzerConfig :=
  storeStruct "gointelowl.AnalyzerConfig" analyzerConfigFields v old

/-- Modelled from the spec: `StatusResponse` is declared in another file of
the package; the spec describes the health-check body as a JSON object with a
boolean `status` field from which the liveness flag is taken. -/
structure StatusResponse where
  Status : Bool
  deriving DecidableEq, Repr

/-- The JSON fields of `StatusResponse`. -/
def statusResponseFields : List (Field StatusResponse) :=
  [ { name := "status", kind := .bool
      get := fun s => s.Status, set := fun s x => { s with Status := x } } ]

/-- The call `json.Unmarshal(data, &status)` for a `StatusResponse`. -/
def unmarshalStatusResponse (data : Payload) (status : StatusResponse) :
    Except GoError StatusResponse :=
  match data with
  | .malformed => .error .SyntaxError
  | .wellFormed v => storeStruct "gointelowl.StatusResponse" statusResponseFields v status

/-! ## Go maps, `range`, `sort.Strings`, `fmt.Sprintf` -/

/-- A `map[string]AnalyzerConfig`: its entries, one per key. -/
abbrev ConfigMap := List (String × AnalyzerConfig)

/-- The statement `m[k] = r`: replaces the entry of `k` or adds one. -/
def mapAssign : ConfigMap → String → AnalyzerConfig → ConfigMap
  | [], k, r => [(k, r)]
  | (k', r') :: m, k, r => if k' = k then (k, r) :: m else (k', r') :: mapAssign m k r

/-- The expression `m[k]`: the entry of `k`, or the zero value. -/
def mapIndex (m : ConfigMap) (k : String) : AnalyzerConfig :=
  (m.lookup k).getD AnalyzerConfig.zero

/-- The keys of a map. -/
def mapKeys (m : ConfigMap) : List String := m.map Prod.fst

/-- The order in which one `for … range m` visits the keys of a map: left
open by the language, any rearrangement of the keys. -/
structure MapIteration where
  order : List String → List String
  perm : ∀ keys, (order keys).Perm keys

/-- Go's `<` on strings, on their characters: the first position where the
two differ decides, and a proper initial segment is smaller. -/
def charsLess : List Char → List Char → Bool
  | _, [] => false
  | [], _ :: _ => true
  | a :: as, b :: bs => if a = b then charsLess as bs else decide (a < b)

/-- Go's `x < y` on strings. -/
def stringLess (x y : String) : Bool := charsLess x.data y.data

/-- The call `sort.Strings(a)`: ascending for Go's `<` on strings.  The
ascending rearrangement of a list of strings is unique, so the sorting
algorithm is immaterial. -/
def sortStrings (a : List String) : List String :=
  a.insertionSort (fun x y => stringLess y x = false)

/-- What `fmt.Sprintf` appends for operands no verb has used. -/
def sprintfExtra : List String → List Char
  | [] => []
  | a :: args =>
    "%!(EXTRA ".data ++ (", ".intercalate ((a :: args).map (fun x => "string=" ++ x))).data
      ++ [')']

/-- The call `fmt.Sprintf(format, args...)` for string operands, on the
characters of the format: `%s` takes the next operand, `%%` is a percent
sign, other characters are copied; a `%s` without operand, a `%` ending the
format and operands left over are reported the way `fmt` does.  Verbs other
than `%s` do not occur in the formats of this package and are copied. -/
def sprintfChars : List Char → List String → List Char
  | [], args => sprintfExtra args
  | [c], args =>
    if c = '%' then "%!(NOVERB)".data ++ sprintfExtra args else c :: sprintfExtra args
  | c :: d :: rest, args =>
    if c = '%' then
      if d = 's' then
        match args with
        | [] => "%!s(MISSING)".data ++ sprintfChars rest []
        | a :: args' => a.data ++ sprintfChars rest args'
      else if d = '%' then '%' :: sprintfChars rest args
      else c :: sprintfChars (d :: rest) args
    else c :: sprintfChars (d :: rest) args

/-- The call `fmt.Sprintf(format, args...)` with string operands. -/
def Sprintf (format : String) (args : List String) : String :=
  String.mk (sprintfChars format.data args)

/-- Modelled from the spec: the constant `ANALYZER_CONFIG_URL` is declared in
another file of the package; the spec and the comment of `GetConfigs` give the
endpoint `{baseURL}/api/get_analyzer_configs`. -/
def ANALYZER_CONFIG_URL : String := "%s/api/get_analyzer_configs"

/-- Modelled from the spec: the constant `ANALYZER_HEALTHCHECK_URL` is
declared in another file of the package; the spec and the comment of
`HealthCheck` give the endpoint `{baseURL}/api/analyzer/{name}/healthcheck`. -/
def ANALYZER_HEALTHCHECK_URL : String := "%s/api/analyzer/%s/healthcheck"

/-- The call `json.Unmarshal(data, &m)` for a `map[string]AnalyzerConfig`:
every member is decoded into a fresh zero record, which is then assigned
under the member's name. -/
def unmarshalConfigMap (data : Payload) (m : ConfigMap) : Except GoError ConfigMap :=
  match data with
  | .malformed => .error .SyntaxError
  | .wellFormed .null => .ok []
  | .wellFormed (.obj members) =>
    members.foldlM
      (fun acc kv => do
        let elem ← storeAnalyzerConfig kv.2 AnalyzerConfig.zero
        pure (mapAssign acc kv.1 elem))
      m
  | .wellFormed w => .error (.UnmarshalTypeError w.kind "map[string]gointelowl.AnalyzerConfig")

/-! ## The client -/

/-- A `context.Context`; it is handed on to the client untouched. -/
structure Context where
  id : Nat
  deriving DecidableEq, Repr

/-- Modelled from the spec: the request object the builder returns (method,
content type, target URL, optional body). -/
structure Request where
  Method : String
  ContentType : String
  URL : String
  Body : Option String
  deriving DecidableEq, Repr

/-- The success envelope returned by the executor; `Data` is the raw body. -/
structure SuccessResponse where
  Data : Payload

/-- One invocation of a client method, with its arguments. -/
inductive Call where
  | buildRequest (ctx : Context) (method contentType : String) (body : Option String)
      (url : String)
  | newRequest (ctx : Context) (request : Request)
  deriving DecidableEq, Repr

/-- The history of client operations performed so far. -/
abbrev World := List Call

/-- The client options read by the analyzer service. -/
structure IntelOwlClientOptions where
  Url : String

/-- The client: its options and what its two methods answer, given the
history at the time of the call. -/
structure IntelOwlClient where
  options : IntelOwlClientOptions
  build : World → Context → String → String → Option String → String → Except GoError Request
  send : World → Context → Request → Except GoError SuccessResponse

/-- The method `client.buildRequest(ctx, method, contentType, body, url)`. -/
def IntelOwlClient.buildRequest (c : IntelOwlClient) (ctx : Context)
    (method contentType : String) (body : Option String) (url : String) (w : World) :
    Except GoError Request × World :=
  (c.build w ctx method contentType body url,
    w ++ [Call.buildRequest ctx method contentType body url])

/-- The method `client.newRequest(ctx, request)`: the network round trip. -/
def IntelOwlClient.newRequest (c : IntelOwlClient) (ctx : Context) (request : Request)
    (w : World) : Except GoError SuccessResponse × World :=
  (c.send w ctx request, w ++ [Call.newRequest ctx request])

/-- The struct `AnalyzerService` (analyzer.go:29-31). -/
structure AnalyzerService where
  client : IntelOwlClient

/-! ## The two methods -/

/-- The method `AnalyzerService.GetConfigs` (analyzer.go:38-69). -/
def AnalyzerService.GetConfigs (analyzerService : AnalyzerService) (iter : MapIteration)
    (ctx : Context) (w : World) : (Option (List AnalyzerConfig) × Option GoError) × World :=
  let requestUrl := Sprintf ANALYZER_CONFIG_URL [analyzerService.client.options.Url]
  let contentType := "application/json"
  let method := "GET"
  match analyzerService.client.buildRequest ctx method contentType none requestUrl w with
  | (.error err, w₁) => ((none, some err), w₁)
  | (.ok request, w₁) =>
    match analyzerService.client.newRequest ctx request w₁ with
    | (.error err, w₂) => ((none, some err), w₂)
    | (.ok successResp, w₂) =>
      match unmarshalConfigMap successResp.Data [] with
      | .error unmarshalError => ((none, some unmarshalError), w₂)
      | .ok analyzerConfigurationResponse =>
        let analyzerNames := (iter.order (mapKeys analyzerConfigurationResponse)).foldl
          (fun names analyzerName => names ++ [analyzerName]) []
        let analyzerNames := sortStrings analyzerNames
        let analyzerConfigurationList := analyzerNames.foldl
          (fun list analyzerName =>
            list ++ [mapIndex analyzerConfigurationResponse analyzerName]) []
        ((some analyzerConfigurationList, none), w₂)

/-- The method `AnalyzerService.HealthCheck` (analyzer.go:76-93). -/
def AnalyzerService.HealthCheck (analyzerService : AnalyzerService) (ctx : Context)
    (analyzerName : String) (w : World) : (Bool × Option GoError) × World :=
  let requestUrl :=
    Sprintf ANALYZER_HEALTHCHECK_URL [analyzerService.client.options.Url, analyzerName]
  let contentType := "application/json"
  let method := "GET"
  match analyzerService.client.buildRequest ctx method contentType none requestUrl w with
  | (.error err, w₁) => ((false, some err), w₁)
  | (.ok request, w₁) =>
    let status : StatusResponse := { Status := false }
    match analyzerService.client.newRequest ctx request w₁ with
    | (.error err, w₂) => ((false, some err), w₂)
    | (.ok successResp, w₂) =>
      match unmarshalStatusResponse successResp.Data status with
      | .error unmarshalError => ((false, some unmarshalError), w₂)
      | .ok status => ((status.Status, none), w₂)

/-- How many times the executor was invoked in a history. -/
def countNewRequest (w : World) : Nat :=
  w.countP (fun c => match c with | .newRequest _ _ => true | _ => false)

/-- The first step of `GetConfigs` (analyzer.go:39-42): the call of the
builder, with the arguments the method passes. -/
def AnalyzerService.buildGetConfigs (analyzerService : AnalyzerService) (ctx : Context)
    (w : World) : Except GoError Request × World :=
  analyzerService.client.buildRequest ctx "GET" "application/json" none
    (Sprintf ANALYZER_CONFIG_URL [analyzerService.client.options.Url]) w

/-- The first step of `HealthCheck` (analyzer.go:77-80): the call of the
builder, with the arguments the method passes. -/
def AnalyzerService.buildHealthCheck (analyzerService : AnalyzerService) (ctx : Context)
    (analyzerName : String) (w : World) : Except GoError Request × World :=
  analyzerService.client.buildRequest ctx "GET" "application/json" none
    (Sprintf ANALYZER_HEALTHCHECK_URL [analyzerService.client.options.Url, analyzerName]) w

/-- The record a member value decodes to: the value stored into a fresh zero
record, as `json` does for the elements of a map. -/
def decodeRecord (v : JSON) : Except GoError AnalyzerConfig :=
  storeAnalyzerConfig v AnalyzerConfig.zero

/-! ## Shapes the decoder rejects -/

/-- A JSON value that cannot be stored in a Go `bool`: anything but a
boolean or null. -/
def boolMismatch : JSON → Bool
  | .null => false
  | .bool _ => false
  | _ => true

/-- A JSON value that cannot be stored in a Go `string`: anything but a
string or null. -/
def stringMismatch : JSON → Bool
  | .null => false
  | .str _ => false
  | _ => true

/-- A JSON value that cannot be stored in a Go value of the given type; for
a list of strings, anything but null or an array of strings and nulls. -/
def kindMismatch : GoKind → JSON → Bool
  | .bool, v => boolMismatch v
  | .string, v => stringMismatch v
  | .stringSlice, .null => false
  | .stringSlice, .arr elems => elems.any stringMismatch
  | .stringSlice, _ => true

/-- An object member that goes to a field whose type does not accept its
value. -/
def memberMismatch {T : Type} (fields : List (Field T)) (kv : String × JSON) : Bool :=
  match findField fields kv.1 with
  | some f => kindMismatch f.kind kv.2
  | none => false

/-- A JSON value that cannot be stored in a struct with the given fields:
neither null nor an object, or an object with a mismatching member. -/
def structMismatch {T : Type} (fields : List (Field T)) : JSON → Bool
  | .null => false
  | .obj members => members.any (memberMismatch fields)
  | _ => true

/-- A health-check body whose status is malformed: not a JSON text, neither
an object nor null, or an object holding under `status` a value that is
neither a boolean nor null. -/
def statusMalformed : Payload → Bool
  | .malformed => true
  | .wellFormed v => structMismatch statusResponseFields v

/-- A health-check body without a status: null, or an object in which every
member either goes to no field or is null. -/
def statusMissing : Payload → Bool
  | .wellFormed .null => true
  | .wellFormed (.obj members) =>
    members.all (fun kv =>
      (findField statusResponseFields kv.1).isNone ||
        (match kv.2 with
          | .null => true
          | _ => false))
  | _ => false

/-- A client whose builder accepts every request and whose executor answers
every request with the body `data`. -/
def answeringClient (url : String) (data : Payload) : IntelOwlClient where
  options := { Url := url }
  build := fun _ _ method contentType body u =>
    .ok { Method := method, ContentType := contentType, URL := u, Body := body }
  send := fun _ _ _ => .ok { Data := data }

/-- A client whose builder rejects every request with `e`; its executor
would answer with `data`. -/
def rejectingClient (url : String) (e : GoError) (data : Payload) : IntelOwlClient where
  options := { Url := url }
  build := fun _ _ _ _ _ _ => .error e
  send := fun _ _ _ => .ok { Data := data }

/-- A client whose builder accepts every request and whose executor fails
with `e`. -/
def failingClient (url : String) (e : GoError) : IntelOwlClient where
  options := { Url := url }
  build := fun _ _ method contentType body u =>
    .ok { Method := method, ContentType := contentType, URL := u, Body := body }
  send := fun _ _ _ => .error e

/-- A map iteration that visits the keys last to first. -/
def reverseIteration : MapIteration where
  order := List.reverse
  perm := fun keys => List.reverse_perm keys

/-- A map iteration that visits the keys first to last. -/
def forwardIteration : MapIteration where
  order := fun keys => keys
  perm := fun keys => List.Perm.refl keys

/-- A config record as JSON, carrying a name and the external-service flag. -/
def recordJSON (name : String) (external : Bool) : JSON :=
  .obj [("name", .str name), ("external_service", .bool external)]

/-- The record `recordJSON name external` decodes to. -/
def recordOf (name : String) (external : Bool) : AnalyzerConfig :=
  { AnalyzerConfig.zero with
    BaseConfigurationType := { Name := name, Description := "", Disabled := false }
    ExternalService := external }

/-- The object with the names `zeta`, `alpha`, `mid`, written in that order. -/
def zetaAlphaMid : List (String × JSON) :=
  [("zeta", recordJSON "zeta" false), ("alpha", recordJSON "alpha" true),
    ("mid", recordJSON "mid" false)]

/-- The same object with its members written in another order. -/
def midZetaAlpha : List (String × JSON) :=
  [("mid", recordJSON "mid" false), ("zeta", recordJSON "zeta" false),
    ("alpha", recordJSON "alpha" true)]

/-- An object with the names `alpha` and `Zeta`. -/
def alphaZeta : List (String × JSON) :=
  [("alpha", recordJSON "alpha" false), ("Zeta", recordJSON "Zeta" false)]

/-- An object whose records carry a name other than the one they are filed
under. -/
def misnamed : List (String × JSON) :=
  [("a", recordJSON "y" false), ("b", recordJSON "x" false)]

/-! ## Lemmas on the runtime model -/

theorem charsLess_iff : ∀ x y : List Char, charsLess x y = true ↔ x < y
  | _, [] => by
    constructor
    · intro h; simp [charsLess] at h
    · intro h; cases h
  | [], b :: bs => by
    simp only [charsLess, true_iff]
    exact List.nil_lt_cons b bs
  | a :: as, b :: bs => by
    have ih := charsLess_iff as bs
    by_cases hab : a = b
    · subst hab
      simp only [charsLess, if_true, ih]
      exact List.Lex.cons_iff.symm
    · simp only [charsLess, hab, if_false, decide_eq_true_eq]
      constructor
      · intro h; exact List.Lex.rel h
      · intro h
        cases h with
        | rel h => exact h
        | cons h => exact absurd rfl hab

theorem stringLess_iff (x y : String) : stringLess x y = true ↔ x < y := by
  rw [String.lt_iff_toList_lt]
  exact charsLess_iff x.data y.data

theorem stringLess_false_iff (x y : String) : stringLess y x = false ↔ x ≤ y := by
  rw [← not_lt, ← stringLess_iff]
  simp

theorem sortStrings_eq (a : List String) :
    sortStrings a = a.insertionSort (fun x y => x ≤ y) := by
  unfold sortStrings
  induction a with
  | nil => rfl
  | cons x l ih =>
    simp only [List.insertionSort]
    rw [ih]
    generalize List.insertionSort (fun x y => x ≤ y) l = t
    induction t with
    | nil => rfl
    | cons y t iht =>
      simp only [List.orderedInsert]
      by_cases h : x ≤ y
      · rw [if_pos h, if_pos ((stringLess_false_iff x y).2 h)]
      · rw [if_neg h, if_neg (fun h' => h ((stringLess_false_iff x y).1 h')), iht]

theorem sortStrings_perm (a : List String) : (sortStrings a).Perm a := by
  rw [sortStrings_eq]
  exact List.perm_insertionSort _ a

theorem sortStrings_sorted (a : List String) : (sortStrings a).Sorted (fun x y => x ≤ y) := by
  rw [sortStrings_eq]
  exact List.sorted_insertionSort _ a

theorem sortStrings_congr {a b : List String} (h : a.Perm b) : sortStrings a = sortStrings b :=
  List.eq_of_perm_of_sorted (((sortStrings_perm a).trans h).trans (sortStrings_perm b).symm)
    (sortStrings_sorted a) (sortStrings_sorted b)

theorem sortStrings_strict {a : List String} (h : a.Nodup) :
    (sortStrings a).Sorted (fun x y => x < y) :=
  (sortStrings_sorted a).lt_of_le ((sortStrings_perm a).nodup_iff.2 h)

theorem foldl_append_singleton {α β : Type} (f : α → β) (l : List α) (init : List β) :
    l.foldl (fun acc x => acc ++ [f x]) init = init ++ l.map f := by
  induction l generalizing init with
  | nil => simp
  | cons x l ih => simp [ih]

theorem foldl_collect (l : List String) :
    l.foldl (fun names analyzerName => names ++ [analyzerName]) [] = l := by
  have h := foldl_append_singleton (fun x : String => x) l []
  simpa using h

/-! ## Lemmas on maps -/

theorem mapAssign_fresh (m : ConfigMap) (k : String) (r : AnalyzerConfig)
    (h : k ∉ mapKeys m) : mapAssign m k r = m ++ [(k, r)] := by
  induction m with
  | nil => rfl
  | cons p m ih =>
    obtain ⟨k', r'⟩ := p
    simp only [mapKeys, List.map_cons, List.mem_cons, not_or] at h
    have hne : ¬ k' = k := fun e => h.1 e.symm
    simp only [mapAssign, hne, if_false, List.cons_append]
    rw [ih h.2]

theorem mapIndex_of_mem (m : ConfigMap) (k : String) (r : AnalyzerConfig)
    (hnd : (mapKeys m).Nodup) (h : (k, r) ∈ m) : mapIndex m k = r := by
  induction m with
  | nil => cases h
  | cons p m ih =>
    obtain ⟨k', r'⟩ := p
    simp only [mapKeys, List.map_cons, List.nodup_cons] at hnd
    rcases List.mem_cons.1 h with e | hm
    · cases e
      simp [mapIndex, List.lookup]
    · have hk : k ∈ m.map Prod.fst := List.mem_map.2 ⟨(k, r), hm, rfl⟩
      have hne : ¬ k = k' := fun e => hnd.1 (e ▸ hk)
      have hb : (k == k') = false := by simpa using hne
      have := ih hnd.2 hm
      simp only [mapIndex, List.lookup, hb] at this ⊢
      exact this

/-- Decoding the members of an object into a map, when the names are new and
every value decodes: the map gains one entry per member, in wire order. -/
theorem foldlM_members_ok (members : List (String × JSON)) (acc : ConfigMap)
    (hnd : (mapKeys acc ++ members.map Prod.fst).Nodup)
    (hdec : ∀ kv ∈ members, ∃ r, decodeRecord kv.2 = .ok r) :
    ∃ added : ConfigMap,
      members.foldlM
        (fun acc kv => do
          let elem ← storeAnalyzerConfig kv.2 AnalyzerConfig.zero
          pure (mapAssign acc kv.1 elem)) acc = Except.ok (acc ++ added) ∧
      mapKeys added = members.map Prod.fst ∧
      List.Forall₂ (fun kv e => e.1 = kv.1 ∧ decodeRecord kv.2 = .ok e.2) members added := by
  induction members generalizing acc with
  | nil => exact ⟨[], by simp [List.foldlM, pure, Except.pure], rfl, List.Forall₂.nil⟩
  | cons kv members ih =>
    obtain ⟨r, hr⟩ := hdec kv (List.mem_cons_self _ _)
    have hfresh : kv.1 ∉ mapKeys acc := by
      intro hmem
      have := List.nodup_append.1 hnd
      exact this.2.2 hmem (by simp)
    have hnd' : (mapKeys (acc ++ [(kv.1, r)]) ++ members.map Prod.fst).Nodup := by
      simpa [mapKeys, List.map_append, List.append_assoc] using hnd
    obtain ⟨added, h1, h2, h3⟩ :=
      ih (acc ++ [(kv.1, r)]) hnd' (fun x hx => hdec x (List.mem_cons_of_mem _ hx))
    refine ⟨(kv.1, r) :: added, ?_, ?_, ?_⟩
    · have hr' : storeAnalyzerConfig kv.2 AnalyzerConfig.zero = Except.ok r := hr
      simp only [List.foldlM, hr', bind, Except.bind, pure, Except.pure,
        mapAssign_fresh acc kv.1 r hfresh]
      simpa [List.append_assoc, bind, Except.bind, pure, Except.pure] using h1
    · simp [mapKeys] at h2 ⊢
      exact h2
    · exact List.Forall₂.cons ⟨rfl, hr⟩ h3

theorem unmarshalConfigMap_object (members : List (String × JSON))
    (hnd : (members.map Prod.fst).Nodup)
    (hdec : ∀ kv ∈ members, ∃ r, decodeRecord kv.2 = .ok r) :
    ∃ m : ConfigMap,
      unmarshalConfigMap (.wellFormed (.obj members)) [] = .ok m ∧
      mapKeys m = members.map Prod.fst ∧
      List.Forall₂ (fun kv e => e.1 = kv.1 ∧ decodeRecord kv.2 = .ok e.2) members m := by
  obtain ⟨added, h1, h2, h3⟩ := foldlM_members_ok members [] (by simpa [mapKeys] using hnd) hdec
  exact ⟨added, by simpa [unmarshalConfigMap] using h1, h2, h3⟩

theorem forall₂_right_mem {α β : Type} {R : α → β → Prop} {l₁ : List α} {l₂ : List β}
    (h : List.Forall₂ R l₁ l₂) : ∀ b ∈ l₂, ∃ a ∈ l₁, R a b := by
  induction h with
  | nil => intro b hb; cases hb
  | cons hab _ ih =>
    intro b hb
    rcases List.mem_cons.1 hb with e | hb'
    · subst e; exact ⟨_, List.mem_cons_self _ _, hab⟩
    · obtain ⟨a, ha, hr⟩ := ih b hb'
      exact ⟨a, List.mem_cons_of_mem _ ha, hr⟩

theorem forall₂_left_mem {α β : Type} {R : α → β → Prop} {l₁ : List α} {l₂ : List β}
    (h : List.Forall₂ R l₁ l₂) : ∀ a ∈ l₁, ∃ b ∈ l₂, R a b := by
  induction h with
  | nil => intro a ha; cases ha
  | cons hab _ ih =>
    intro a ha
    rcases List.mem_cons.1 ha with e | ha'
    · subst e; exact ⟨_, List.mem_cons_self _ _, hab⟩
    · obtain ⟨b, hb, hr⟩ := ih a ha'
      exact ⟨b, List.mem_cons_of_mem _ hb, hr⟩

/-- What a decoded map holds under a name of the object it was decoded
from. -/
theorem mapIndex_decoded (members : List (String × JSON)) (m : ConfigMap)
    (hkeys : mapKeys m = members.map Prod.fst) (hnd : (members.map Prod.fst).Nodup)
    (hrel : List.Forall₂ (fun kv e => e.1 = kv.1 ∧ decodeRecord kv.2 = .ok e.2) members m)
    (k : String) (v : JSON) (hkv : (k, v) ∈ members) :
    decodeRecord v = .ok (mapIndex m k) := by
  obtain ⟨e, he, hk, hd⟩ := forall₂_left_mem hrel (k, v) hkv
  have hmem : (k, e.2) ∈ m := by
    have : e = (k, e.2) := by
      cases e; simp only at hk; subst hk; rfl
    rw [← this]; exact he
  rw [mapIndex_of_mem m k e.2 (hkeys ▸ hnd) hmem]
  exact hd

/-! ## The steps of the two methods -/

theorem GetConfigs_build_error (s : AnalyzerService) (iter : MapIteration) (ctx : Context)
    (w w₁ : World) (e : GoError) (hb : s.buildGetConfigs ctx w = (.error e, w₁)) :
    s.GetConfigs iter ctx w = ((none, some e), w₁) := by
  unfold AnalyzerService.buildGetConfigs at hb
  simp only [AnalyzerService.GetConfigs, hb]

theorem GetConfigs_send_error (s : AnalyzerService) (iter : MapIteration) (ctx : Context)
    (w w₁ w₂ : World) (request : Request) (e : GoError)
    (hb : s.buildGetConfigs ctx w = (.ok request, w₁))
    (hs : s.client.newRequest ctx request w₁ = (.error e, w₂)) :
    s.GetConfigs iter ctx w = ((none, some e), w₂) := by
  unfold AnalyzerService.buildGetConfigs at hb
  simp only [AnalyzerService.GetConfigs, hb, hs]

theorem GetConfigs_decode_error (s : AnalyzerService) (iter : MapIteration) (ctx : Context)
    (w w₁ w₂ : World) (request : Request) (resp : SuccessResponse) (e : GoError)
    (hb : s.buildGetConfigs ctx w = (.ok request, w₁))
    (hs : s.client.newRequest ctx request w₁ = (.ok resp, w₂))
    (hd : unmarshalConfigMap resp.Data [] = .error e) :
    s.GetConfigs iter ctx w = ((none, some e), w₂) := by
  unfold AnalyzerService.buildGetConfigs at hb
  simp only [AnalyzerService.GetConfigs, hb, hs, hd]

theorem GetConfigs_decoded (s : AnalyzerService) (iter : MapIteration) (ctx : Context)
    (w w₁ w₂ : World) (request : Request) (resp : SuccessResponse) (m : ConfigMap)
    (hb : s.buildGetConfigs ctx w = (.ok request, w₁))
    (hs : s.client.newRequest ctx request w₁ = (.ok resp, w₂))
    (hd : unmarshalConfigMap resp.Data [] = .ok m) :
    s.GetConfigs iter ctx w =
      ((some ((sortStrings (mapKeys m)).map (mapIndex m)), none), w₂) := by
  unfold AnalyzerService.buildGetConfigs at hb
  simp only [AnalyzerService.GetConfigs, hb, hs, hd, foldl_collect]
  rw [foldl_append_singleton, sortStrings_congr (iter.perm (mapKeys m))]
  simp

theorem HealthCheck_build_error (s : AnalyzerService) (ctx : Context) (name : String)
    (w w₁ : World) (e : GoError) (hb : s.buildHealthCheck ctx name w = (.error e, w₁)) :
    s.HealthCheck ctx name w = ((false, some e), w₁) := by
  unfold AnalyzerService.buildHealthCheck at hb
  simp only [AnalyzerService.HealthCheck, hb]

theorem HealthCheck_send_error (s : AnalyzerService) (ctx : Context) (name : String)
    (w w₁ w₂ : World) (request : Request) (e : GoError)
    (hb : s.buildHealthCheck ctx name w = (.ok request, w₁))
    (hs : s.client.newRequest ctx request w₁ = (.error e, w₂)) :
    s.HealthCheck ctx name w = ((false, some e), w₂) := by
  unfold AnalyzerService.buildHealthCheck at hb
  simp only [AnalyzerService.HealthCheck, hb, hs]

theorem HealthCheck_decode_error (s : AnalyzerService) (ctx : Context) (name : String)
    (w w₁ w₂ : World) (request : Request) (resp : SuccessResponse) (e : GoError)
    (hb : s.buildHealthCheck ctx name w = (.ok request, w₁))
    (hs : s.client.newRequest ctx request w₁ = (.ok resp, w₂))
    (hd : unmarshalStatusResponse resp.Data { Status := false } = .error e) :
    s.HealthCheck ctx name w = ((false, some e), w₂) := by
  unfold AnalyzerService.buildHealthCheck at hb
  simp only [AnalyzerService.HealthCheck, hb, hs, hd]

theorem HealthCheck_decoded (s : AnalyzerService) (ctx : Context) (name : String)
    (w w₁ w₂ : World) (request : Request) (resp : SuccessResponse) (status : StatusResponse)
    (hb : s.buildHealthCheck ctx name w = (.ok request, w₁))
    (hs : s.client.newRequest ctx request w₁ = (.ok resp, w₂))
    (hd : unmarshalStatusResponse resp.Data { Status := false } = .ok status) :
    s.HealthCheck ctx name w = ((status.Status, none), w₂) := by
  unfold AnalyzerService.buildHealthCheck at hb
  simp only [AnalyzerService.HealthCheck, hb, hs, hd]

/-! ## Claims on the order of `GetConfigs` -/

/-- Claim C1.  When the request builds and the executor answers with a JSON
object of distinct names whose values all decode as `AnalyzerConfig`,
`GetConfigs` returns a nil error and a list with one record per member; the
list follows the names taken in strictly ascending order: its i-th record is
the one decoded from the value under the i-th smallest name. -/
theorem GetConfigs_sorted_by_key (s : AnalyzerService) (iter : MapIteration) (ctx : Context)
    (w w₁ w₂ : World) (request : Request) (members : List (String × JSON))
    (hb : s.buildGetConfigs ctx w = (.ok request, w₁))
    (hs : s.client.newRequest ctx request w₁ =
      (.ok { Data := .wellFormed (.obj members) }, w₂))
    (hkeys : (members.map Prod.fst).Nodup)
    (hdec : ∀ kv ∈ members, ∃ r, decodeRecord kv.2 = .ok r) :
    ∃ (keys : List String) (list : List AnalyzerConfig),
      (s.GetConfigs iter ctx w).1 = (some list, none) ∧
      list.length = members.length ∧
      keys.Perm (members.map Prod.fst) ∧
      keys.Sorted (fun a b => a < b) ∧
      List.Forall₂ (fun k r => ∃ v, (k, v) ∈ members ∧ decodeRecord v = .ok r) keys list := by
  obtain ⟨m, hm, hmk, hrel⟩ := unmarshalConfigMap_object members hkeys hdec
  refine ⟨sortStrings (members.map Prod.fst),
    (sortStrings (members.map Prod.fst)).map (mapIndex m), ?_, ?_, ?_, ?_, ?_⟩
  · rw [GetConfigs_decoded s iter ctx w w₁ w₂ request _ m hb hs hm, hmk]
  · rw [List.length_map, (sortStrings_perm _).length_eq, List.length_map]
  · exact sortStrings_perm _
  · exact sortStrings_strict hkeys
  · rw [List.forall₂_map_right_iff]
    apply List.forall₂_same.2
    intro k hk
    have hk' : k ∈ members.map Prod.fst := (sortStrings_perm _).mem_iff.1 hk
    obtain ⟨kv, hkv, rfl⟩ := List.mem_map.1 hk'
    exact ⟨kv.2, hkv, mapIndex_decoded members m hmk hkeys hrel kv.1 kv.2 hkv⟩

/-- Claim C1 at the object with names zeta, alpha, mid: the hypotheses hold
there, and the records come out as alpha, mid, zeta. -/
theorem GetConfigs_sorted_by_key_witness :
    (∃ (keys : List String) (list : List AnalyzerConfig),
      (AnalyzerService.GetConfigs
        { client := answeringClient "http://owl" (.wellFormed (.obj zetaAlphaMid)) }
        reverseIteration { id := 0 } []).1 = (some list, none) ∧
      list.length = zetaAlphaMid.length ∧
      keys.Perm (zetaAlphaMid.map Prod.fst) ∧
      keys.Sorted (fun a b => a < b) ∧
      List.Forall₂ (fun k r => ∃ v, (k, v) ∈ zetaAlphaMid ∧ decodeRecord v = .ok r)
        keys list) ∧
    (AnalyzerService.GetConfigs
        { client := answeringClient "http://owl" (.wellFormed (.obj zetaAlphaMid)) }
        reverseIteration { id := 0 } []).1 =
      (some [recordOf "alpha" true, recordOf "mid" false, recordOf "zeta" false], none) :=
  ⟨GetConfigs_sorted_by_key
      { client := answeringClient "http://owl" (.wellFormed (.obj zetaAlphaMid)) }
      reverseIteration { id := 0 } [] _ _ _ zetaAlphaMid rfl rfl (by decide)
      (by
        intro kv hkv
        simp only [zetaAlphaMid, List.mem_cons, List.mem_singleton, List.not_mem_nil,
          or_false] at hkv
        rcases hkv with rfl | rfl | rfl <;> exact ⟨_, rfl⟩),
    rfl⟩

/-- Claim C2.  Two successful answers that are JSON objects with the same
members (distinct names, values that decode), written in different orders,
make `GetConfigs` return the same list with a nil error, whatever the client,
the history and the order in which each run iterates over its map. -/
theorem GetConfigs_wire_order_independent (s s' : AnalyzerService) (iter iter' : MapIteration)
    (ctx ctx' : Context) (w w₁ w₂ w' w₁' w₂' : World) (request request' : Request)
    (members members' : List (String × JSON))
    (hb : s.buildGetConfigs ctx w = (.ok request, w₁))
    (hs : s.client.newRequest ctx request w₁ =
      (.ok { Data := .wellFormed (.obj members) }, w₂))
    (hb' : s'.buildGetConfigs ctx' w' = (.ok request', w₁'))
    (hs' : s'.client.newRequest ctx' request' w₁' =
      (.ok { Data := .wellFormed (.obj members') }, w₂'))
    (hperm : members.Perm members')
    (hkeys : (members.map Prod.fst).Nodup)
    (hdec : ∀ kv ∈ members, ∃ r, decodeRecord kv.2 = .ok r) :
    ∃ list : List AnalyzerConfig,
      (s.GetConfigs iter ctx w).1 = (some list, none) ∧
      (s'.GetConfigs iter' ctx' w').1 = (some list, none) := by
  have hkeys' : (members'.map Prod.fst).Nodup := (hperm.map Prod.fst).nodup_iff.1 hkeys
  have hdec' : ∀ kv ∈ members', ∃ r, decodeRecord kv.2 = .ok r :=
    fun kv hkv => hdec kv (hperm.mem_iff.2 hkv)
  obtain ⟨m, hm, hmk, hrel⟩ := unmarshalConfigMap_object members hkeys hdec
  obtain ⟨m', hm', hmk', hrel'⟩ := unmarshalConfigMap_object members' hkeys' hdec'
  refine ⟨(sortStrings (mapKeys m)).map (mapIndex m), ?_, ?_⟩
  · rw [GetConfigs_decoded s iter ctx w w₁ w₂ request _ m hb hs hm]
  · rw [GetConfigs_decoded s' iter' ctx' w' w₁' w₂' request' _ m' hb' hs' hm', hmk, hmk',
      sortStrings_congr (hperm.map Prod.fst)]
    have hmap : (sortStrings (members'.map Prod.fst)).map (mapIndex m') =
        (sortStrings (members'.map Prod.fst)).map (mapIndex m) := by
      apply List.map_congr_left
      intro k hk
      have hk' : k ∈ members'.map Prod.fst := (sortStrings_perm _).mem_iff.1 hk
      obtain ⟨kv, hkv, rfl⟩ := List.mem_map.1 hk'
      have h1 := mapIndex_decoded members' m' hmk' hkeys' hrel' kv.1 kv.2 hkv
      have h2 := mapIndex_decoded members m hmk hkeys hrel kv.1 kv.2 (hperm.mem_iff.2 hkv)
      rw [h1] at h2
      exact Except.ok.inj h2
    rw [hmap]

/-- Claim C2 at the object zeta, alpha, mid and the same object written as
mid, zeta, alpha, iterated in opposite orders. -/
theorem GetConfigs_wire_order_independent_witness :
    ∃ list : List AnalyzerConfig,
      (AnalyzerService.GetConfigs
        { client := answeringClient "http://owl" (.wellFormed (.obj zetaAlphaMid)) }
        reverseIteration { id := 0 } []).1 = (some list, none) ∧
      (AnalyzerService.GetConfigs
        { client := answeringClient "http://owl" (.wellFormed (.obj midZetaAlpha)) }
        forwardIteration { id := 1 } []).1 = (some list, none) :=
  GetConfigs_wire_order_independent
    { client := answeringClient "http://owl" (.wellFormed (.obj zetaAlphaMid)) }
    { client := answeringClient "http://owl" (.wellFormed (.obj midZetaAlpha)) }
    reverseIteration forwardIteration { id := 0 } { id := 1 } [] _ _ [] _ _ _ _
    zetaAlphaMid midZetaAlpha rfl rfl rfl rfl
    (by
      show [_, _, _].Perm [_, _, _]
      exact ((List.Perm.swap _ _ _).trans ((List.Perm.swap _ _ _).cons _)).symm)
    (by decide)
    (by
      intro kv hkv
      simp only [zetaAlphaMid, List.mem_cons, List.mem_singleton, List.not_mem_nil,
        or_false] at hkv
      rcases hkv with rfl | rfl | rfl <;> exact ⟨_, rfl⟩)

/-- Claim C10.  The order of `GetConfigs` is Go's case-sensitive order on the
names the records are filed under: neighbouring names of the result satisfy
`stringLess`; for the names `alpha` and `Zeta` the record under `Zeta` comes
first; and records whose own name field differs from the name they are filed
under are placed by the latter. -/
theorem GetConfigs_order_is_key_bytes (s : AnalyzerService) (iter : MapIteration)
    (ctx : Context) (w w₁ w₂ : World) (request : Request) (resp : SuccessResponse)
    (hb : s.buildGetConfigs ctx w = (.ok request, w₁))
    (hs : s.client.newRequest ctx request w₁ = (.ok resp, w₂)) :
    (∀ members, resp.Data = .wellFormed (.obj members) → (members.map Prod.fst).Nodup →
      (∀ kv ∈ members, ∃ r, decodeRecord kv.2 = .ok r) →
      ∃ (keys : List String) (list : List AnalyzerConfig),
        (s.GetConfigs iter ctx w).1 = (some list, none) ∧
        keys.Perm (members.map Prod.fst) ∧
        keys.Pairwise (fun a b => stringLess a b = true) ∧
        List.Forall₂ (fun k r => ∃ v, (k, v) ∈ members ∧ decodeRecord v = .ok r)
          keys list) ∧
    (resp.Data = .wellFormed (.obj alphaZeta) →
      (s.GetConfigs iter ctx w).1 =
        (some [recordOf "Zeta" false, recordOf "alpha" false], none)) ∧
    (resp.Data = .wellFormed (.obj misnamed) →
      (s.GetConfigs iter ctx w).1 = (some [recordOf "y" false, recordOf "x" false], none)) := by
  refine ⟨?_, ?_, ?_⟩
  · intro members hd hkeys hdec
    obtain ⟨m, hm, hmk, hrel⟩ := unmarshalConfigMap_object members hkeys hdec
    refine ⟨sortStrings (members.map Prod.fst),
      (sortStrings (members.map Prod.fst)).map (mapIndex m), ?_, ?_, ?_, ?_⟩
    · rw [GetConfigs_decoded s iter ctx w w₁ w₂ request resp m hb hs (hd ▸ hm), hmk]
    · exact sortStrings_perm _
    · exact (sortStrings_strict hkeys).imp (fun h => (stringLess_iff _ _).2 h)
    · rw [List.forall₂_map_right_iff]
      apply List.forall₂_same.2
      intro k hk
      have hk' : k ∈ members.map Prod.fst := (sortStrings_perm _).mem_iff.1 hk
      obtain ⟨kv, hkv, rfl⟩ := List.mem_map.1 hk'
      exact ⟨kv.2, hkv, mapIndex_decoded members m hmk hkeys hrel kv.1 kv.2 hkv⟩
  · intro hd
    have hm : unmarshalConfigMap resp.Data [] =
        .ok [("alpha", recordOf "alpha" false), ("Zeta", recordOf "Zeta" false)] := by
      rw [hd]; rfl
    rw [GetConfigs_decoded s iter ctx w w₁ w₂ request resp _ hb hs hm]
    rfl
  · intro hd
    have hm : unmarshalConfigMap resp.Data [] =
        .ok [("a", recordOf "y" false), ("b", recordOf "x" false)] := by
      rw [hd]; rfl
    rw [GetConfigs_decoded s iter ctx w w₁ w₂ request resp _ hb hs hm]
    rfl

/-- Claim C10 at a client that answers with the object alpha, Zeta. -/
theorem GetConfigs_order_is_key_bytes_witness :
    (AnalyzerService.GetConfigs
        { client := answeringClient "http://owl" (.wellFormed (.obj alphaZeta)) }
        forwardIteration { id := 0 } []).1 =
      (some [recordOf "Zeta" false, recordOf "alpha" false], none) :=
  (GetConfigs_order_is_key_bytes
    { client := answeringClient "http://owl" (.wellFormed (.obj alphaZeta)) }
    forwardIteration { id := 0 } [] _ _ _ _ rfl rfl).2.1 rfl

/-! ## The request URLs -/

theorem Sprintf_config_url (url : String) :
    Sprintf ANALYZER_CONFIG_URL [url] = url ++ "/api/get_analyzer_configs" := by
  apply String.ext
  show sprintfChars ("%s/api/get_analyzer_configs".data) [url] = _
  simp [sprintfChars, sprintfExtra, String.data_append]

theorem Sprintf_healthcheck_url (url name : String) :
    Sprintf ANALYZER_HEALTHCHECK_URL [url, name] =
      url ++ "/api/analyzer/" ++ name ++ "/healthcheck" := by
  apply String.ext
  show sprintfChars ("%s/api/analyzer/%s/healthcheck".data) [url, name] = _
  simp [sprintfChars, sprintfExtra, String.data_append]

/-! ## Claims on `HealthCheck` results and on error propagation -/

/-- Claim C4.  When the request builds and the executor answers with the
body `{"status": b}`, `HealthCheck` returns `(b, nil)`; and whenever
`HealthCheck` returns true, the builder succeeded, the executor succeeded,
the body decoded with a true status field, and the error is nil. -/
theorem HealthCheck_returns_status (s : AnalyzerService) (ctx : Context) (name : String)
    (w : World) :
    (∀ (b : Bool) (request : Request) (w₁ w₂ : World),
      s.buildHealthCheck ctx name w = (.ok request, w₁) →
      s.client.newRequest ctx request w₁ =
        (.ok { Data := .wellFormed (.obj [("status", .bool b)]) }, w₂) →
      s.HealthCheck ctx name w = ((b, none), w₂)) ∧
    ((s.HealthCheck ctx name w).1.1 = true →
      ∃ (request : Request) (resp : SuccessResponse) (status : StatusResponse),
        (s.buildHealthCheck ctx name w).1 = .ok request ∧
        (s.client.newRequest ctx request (s.buildHealthCheck ctx name w).2).1 = .ok resp ∧
        unmarshalStatusResponse resp.Data { Status := false } = .ok status ∧
        status.Status = true ∧
        (s.HealthCheck ctx name w).1.2 = none) := by
  constructor
  · intro b request w₁ w₂ hb hs
    rw [HealthCheck_decoded s ctx name w w₁ w₂ request _ { Status := b } hb hs]
    cases b <;> rfl
  · intro htrue
    rcases hb : s.buildHealthCheck ctx name w with ⟨_ | request, w₁⟩
    · rw [HealthCheck_build_error s ctx name w w₁ _ hb] at htrue
      cases htrue
    · rcases hs : s.client.newRequest ctx request w₁ with ⟨_ | resp, w₂⟩
      · rw [HealthCheck_send_error s ctx name w w₁ w₂ request _ hb hs] at htrue
        cases htrue
      · rcases hd : unmarshalStatusResponse resp.Data { Status := false } with _ | status
        · rw [HealthCheck_decode_error s ctx name w w₁ w₂ request resp _ hb hs hd] at htrue
          cases htrue
        · rw [HealthCheck_decoded s ctx name w w₁ w₂ request resp status hb hs hd] at htrue ⊢
          exact ⟨request, resp, status, rfl, by rw [hs], hd, htrue, rfl⟩

/-- Claim C4 at a client answering `{"status": true}`. -/
theorem HealthCheck_returns_status_witness :
    (AnalyzerService.HealthCheck
      { client := answeringClient "http://owl"
          (.wellFormed (.obj [("status", .bool true)])) }
      { id := 0 } "Yara" []).1 = (true, none) :=
  congrArg Prod.fst
    ((HealthCheck_returns_status
      { client := answeringClient "http://owl" (.wellFormed (.obj [("status", .bool true)])) }
      { id := 0 } "Yara" []).1 true _ _ _ rfl rfl)

/-- Claim C5.  In `GetConfigs` and in `HealthCheck`, an error `e` returned
by the builder, by the executor or by the JSON decoder is returned as it is,
together with the empty result: a nil list for `GetConfigs`, false for
`HealthCheck`. -/
theorem errors_returned_unchanged (s : AnalyzerService) (iter : MapIteration) (ctx : Context)
    (name : String) (w : World) (e : GoError) :
    (∀ w₁, s.buildGetConfigs ctx w = (.error e, w₁) →
      (s.GetConfigs iter ctx w).1 = (none, some e)) ∧
    (∀ request w₁ w₂, s.buildGetConfigs ctx w = (.ok request, w₁) →
      s.client.newRequest ctx request w₁ = (.error e, w₂) →
      (s.GetConfigs iter ctx w).1 = (none, some e)) ∧
    (∀ request resp w₁ w₂, s.buildGetConfigs ctx w = (.ok request, w₁) →
      s.client.newRequest ctx request w₁ = (.ok resp, w₂) →
      unmarshalConfigMap resp.Data [] = .error e →
      (s.GetConfigs iter ctx w).1 = (none, some e)) ∧
    (∀ w₁, s.buildHealthCheck ctx name w = (.error e, w₁) →
      (s.HealthCheck ctx name w).1 = (false, some e)) ∧
    (∀ request w₁ w₂, s.buildHealthCheck ctx name w = (.ok request, w₁) →
      s.client.newRequest ctx request w₁ = (.error e, w₂) →
      (s.HealthCheck ctx name w).1 = (false, some e)) ∧
    (∀ request resp w₁ w₂, s.buildHealthCheck ctx name w = (.ok request, w₁) →
      s.client.newRequest ctx request w₁ = (.ok resp, w₂) →
      unmarshalStatusResponse resp.Data { Status := false } = .error e →
      (s.HealthCheck ctx name w).1 = (false, some e)) := by
  refine ⟨?_, ?_, ?_, ?_, ?_, ?_⟩
  · intro w₁ hb
    rw [GetConfigs_build_error s iter ctx w w₁ e hb]
  · intro request w₁ w₂ hb hs
    rw [GetConfigs_send_error s iter ctx w w₁ w₂ request e hb hs]
  · intro request resp w₁ w₂ hb hs hd
    rw [GetConfigs_decode_error s iter ctx w w₁ w₂ request resp e hb hs hd]
  · intro w₁ hb
    rw [HealthCheck_build_error s ctx name w w₁ e hb]
  · intro request w₁ w₂ hb hs
    rw [HealthCheck_send_error s ctx name w w₁ w₂ request e hb hs]
  · intro request resp w₁ w₂ hb hs hd
    rw [HealthCheck_decode_error s ctx name w w₁ w₂ request resp e hb hs hd]

/-- Claim C5 at an executor that fails with the API error of an HTTP 404. -/
theorem errors_returned_unchanged_witness :
    (AnalyzerService.HealthCheck
      { client := failingClient "http://owl" (.IntelOwlError 404 "not found") }
      { id := 0 } "Yara" []).1 = (false, some (.IntelOwlError 404 "not found")) :=
  (errors_returned_unchanged
    { client := failingClient "http://owl" (.IntelOwlError 404 "not found") }
    forwardIteration { id := 0 } "Yara" [] (.IntelOwlError 404 "not found")).2.2.2.2.1
    _ _ _ rfl rfl

/-! ## The history left by the two methods -/

theorem GetConfigs_world (s : AnalyzerService) (iter : MapIteration) (ctx : Context)
    (w : World) :
    (s.GetConfigs iter ctx w).2 =
      w ++ Call.buildRequest ctx "GET" "application/json" none
          (Sprintf ANALYZER_CONFIG_URL [s.client.options.Url]) ::
        (match (s.buildGetConfigs ctx w).1 with
          | .ok request => [Call.newRequest ctx request]
          | .error _ => []) := by
  rcases hb : s.buildGetConfigs ctx w with ⟨e | request, w₁⟩
  · rw [GetConfigs_build_error s iter ctx w w₁ e hb]
    have := congrArg Prod.snd hb
    simp only [AnalyzerService.buildGetConfigs, IntelOwlClient.buildRequest] at this
    simp [← this]
  · have hw := congrArg Prod.snd hb
    simp only [AnalyzerService.buildGetConfigs, IntelOwlClient.buildRequest] at hw
    rcases hs : s.client.newRequest ctx request w₁ with ⟨e | resp, w₂⟩
    · rw [GetConfigs_send_error s iter ctx w w₁ w₂ request e hb hs]
      have := congrArg Prod.snd hs
      simp only [IntelOwlClient.newRequest] at this
      simp [← this, ← hw]
    · have hw₂ := congrArg Prod.snd hs
      simp only [IntelOwlClient.newRequest] at hw₂
      rcases hd : unmarshalConfigMap resp.Data [] with e | m
      · rw [GetConfigs_decode_error s iter ctx w w₁ w₂ request resp e hb hs hd]
        simp [← hw₂, ← hw]
      · rw [GetConfigs_decoded s iter ctx w w₁ w₂ request resp m hb hs hd]
        simp [← hw₂, ← hw]

theorem HealthCheck_world (s : AnalyzerService) (ctx : Context) (name : String) (w : World) :
    (s.HealthCheck ctx name w).2 =
      w ++ Call.buildRequest ctx "GET" "application/json" none
          (Sprintf ANALYZER_HEALTHCHECK_URL [s.client.options.Url, name]) ::
        (match (s.buildHealthCheck ctx name w).1 with
          | .ok request => [Call.newRequest ctx request]
          | .error _ => []) := by
  rcases hb : s.buildHealthCheck ctx name w with ⟨e | request, w₁⟩
  · rw [HealthCheck_build_error s ctx name w w₁ e hb]
    have := congrArg Prod.snd hb
    simp only [AnalyzerService.buildHealthCheck, IntelOwlClient.buildRequest] at this
    simp [← this]
  · have hw := congrArg Prod.snd hb
    simp only [AnalyzerService.buildHealthCheck, IntelOwlClient.buildRequest] at hw
    rcases hs : s.client.newRequest ctx request w₁ with ⟨e | resp, w₂⟩
    · rw [HealthCheck_send_error s ctx name w w₁ w₂ request e hb hs]
      have := congrArg Prod.snd hs
      simp only [IntelOwlClient.newRequest] at this
      simp [← this, ← hw]
    · have hw₂ := congrArg Prod.snd hs
      simp only [IntelOwlClient.newRequest] at hw₂
      rcases hd : unmarshalStatusResponse resp.Data { Status := false } with e | status
      · rw [HealthCheck_decode_error s ctx name w w₁ w₂ request resp e hb hs hd]
        simp [← hw₂, ← hw]
      · rw [HealthCheck_decoded s ctx name w w₁ w₂ request resp status hb hs hd]
        simp [← hw₂, ← hw]

/-! ## Claims on the calls made to the client -/

/-- Claim C6.  When building the request fails, `GetConfigs` and
`HealthCheck` return the builder's error without invoking the executor: the
history grows by the builder call alone, and result and history are the same
for every executor `send'` put in place of the client's. -/
theorem build_failure_skips_executor (s : AnalyzerService) (iter : MapIteration)
    (ctx : Context) (name : String) (w : World) (e : GoError)
    (send' : World → Context → Request → Except GoError SuccessResponse) :
    ((s.buildGetConfigs ctx w).1 = .error e →
      s.GetConfigs iter ctx w = ((none, some e), (s.buildGetConfigs ctx w).2) ∧
      countNewRequest (s.GetConfigs iter ctx w).2 = countNewRequest w ∧
      AnalyzerService.GetConfigs { client := { s.client with send := send' } } iter ctx w =
        s.GetConfigs iter ctx w) ∧
    ((s.buildHealthCheck ctx name w).1 = .error e →
      s.HealthCheck ctx name w = ((false, some e), (s.buildHealthCheck ctx name w).2) ∧
      countNewRequest (s.HealthCheck ctx name w).2 = countNewRequest w ∧
      AnalyzerService.HealthCheck { client := { s.client with send := send' } } ctx name w =
        s.HealthCheck ctx name w) := by
  constructor
  · intro hb
    have hb1 : s.buildGetConfigs ctx w = (.error e, (s.buildGetConfigs ctx w).2) := by
      rw [← hb]
    have hb2 : AnalyzerService.buildGetConfigs { client := { s.client with send := send' } }
        ctx w = (.error e, (s.buildGetConfigs ctx w).2) := by
      rw [← hb]; rfl
    rw [GetConfigs_build_error s iter ctx w _ e hb1, GetConfigs_build_error _ iter ctx w _ e hb2]
    refine ⟨rfl, ?_, rfl⟩
    simp [AnalyzerService.buildGetConfigs, IntelOwlClient.buildRequest, countNewRequest]
  · intro hb
    have hb1 : s.buildHealthCheck ctx name w =
        (.error e, (s.buildHealthCheck ctx name w).2) := by
      rw [← hb]
    have hb2 : AnalyzerService.buildHealthCheck { client := { s.client with send := send' } }
        ctx name w = (.error e, (s.buildHealthCheck ctx name w).2) := by
      rw [← hb]; rfl
    rw [HealthCheck_build_error s ctx name w _ e hb1,
      HealthCheck_build_error _ ctx name w _ e hb2]
    refine ⟨rfl, ?_, rfl⟩
    simp [AnalyzerService.buildHealthCheck, IntelOwlClient.buildRequest, countNewRequest]

/-- Claim C6 at a builder that rejects the request: the executor's answer is
replaced by a failing executor and nothing changes. -/
theorem build_failure_skips_executor_witness :
    AnalyzerService.GetConfigs
        { client := rejectingClient "::" (.errorString "missing protocol scheme")
            (.wellFormed (.obj zetaAlphaMid)) }
        forwardIteration { id := 0 } [] =
      ((none, some (.errorString "missing protocol scheme")),
        [Call.buildRequest { id := 0 } "GET" "application/json" none
          "::/api/get_analyzer_configs"]) ∧
    AnalyzerService.GetConfigs
        { client :=
            { rejectingClient "::" (.errorString "missing protocol scheme")
                (.wellFormed (.obj zetaAlphaMid)) with
              send := fun _ _ _ => .error (.errorString "connection refused") } }
        forwardIteration { id := 0 } [] =
      AnalyzerService.GetConfigs
        { client := rejectingClient "::" (.errorString "missing protocol scheme")
            (.wellFormed (.obj zetaAlphaMid)) }
        forwardIteration { id := 0 } [] :=
  have h := (build_failure_skips_executor
    { client := rejectingClient "::" (.errorString "missing protocol scheme")
        (.wellFormed (.obj zetaAlphaMid)) }
    forwardIteration { id := 0 } "Yara" [] (.errorString "missing protocol scheme")
    (fun _ _ _ => .error (.errorString "connection refused"))).1 rfl
  ⟨h.1, h.2.2⟩

/-- Claim C7.  One call of `GetConfigs` or of `HealthCheck` invokes the
executor exactly once when the request builds, whether the executor then
succeeds or fails, and not at all otherwise; so at most once, with no second
attempt after a failure. -/
theorem executor_invoked_once (s : AnalyzerService) (iter : MapIteration) (ctx : Context)
    (name : String) (w : World) :
    countNewRequest (s.GetConfigs iter ctx w).2 =
      countNewRequest w +
        (match (s.buildGetConfigs ctx w).1 with
          | .ok _ => 1
          | .error _ => 0) ∧
    countNewRequest (s.HealthCheck ctx name w).2 =
      countNewRequest w +
        (match (s.buildHealthCheck ctx name w).1 with
          | .ok _ => 1
          | .error _ => 0) ∧
    countNewRequest (s.GetConfigs iter ctx w).2 ≤ countNewRequest w + 1 ∧
    countNewRequest (s.HealthCheck ctx name w).2 ≤ countNewRequest w + 1 := by
  have hG : countNewRequest (s.GetConfigs iter ctx w).2 =
      countNewRequest w +
        (match (s.buildGetConfigs ctx w).1 with
          | .ok _ => 1
          | .error _ => 0) := by
    rw [GetConfigs_world]
    cases (s.buildGetConfigs ctx w).1 <;> simp [countNewRequest, List.countP_cons]
  have hH : countNewRequest (s.HealthCheck ctx name w).2 =
      countNewRequest w +
        (match (s.buildHealthCheck ctx name w).1 with
          | .ok _ => 1
          | .error _ => 0) := by
    rw [HealthCheck_world]
    cases (s.buildHealthCheck ctx name w).1 <;> simp [countNewRequest, List.countP_cons]
  refine ⟨hG, hH, ?_, ?_⟩
  · rw [hG]; split <;> omega
  · rw [hH]; split <;> omega

/-- Claim C9.  `GetConfigs` calls the builder once, with method GET, no
body and the URL made of the client's base URL followed by
`/api/get_analyzer_configs`; `HealthCheck` calls it once, with method GET, no
body and the URL made of the base URL, `/api/analyzer/`, the analyzer name as
given, and `/healthcheck`.  The request handed to the executor is the one the
builder returned. -/
theorem builder_arguments (s : AnalyzerService) (iter : MapIteration) (ctx : Context)
    (name : String) (w : World) :
    (s.GetConfigs iter ctx w).2 =
      w ++ Call.buildRequest ctx "GET" "application/json" none
          (s.client.options.Url ++ "/api/get_analyzer_configs") ::
        (match s.client.build w ctx "GET" "application/json" none
            (s.client.options.Url ++ "/api/get_analyzer_configs") with
          | .ok request => [Call.newRequest ctx request]
          | .error _ => []) ∧
    (s.HealthCheck ctx name w).2 =
      w ++ Call.buildRequest ctx "GET" "application/json" none
          (s.client.options.Url ++ "/api/analyzer/" ++ name ++ "/healthcheck") ::
        (match s.client.build w ctx "GET" "application/json" none
            (s.client.options.Url ++ "/api/analyzer/" ++ name ++ "/healthcheck") with
          | .ok request => [Call.newRequest ctx request]
          | .error _ => []) := by
  constructor
  · rw [GetConfigs_world, ← Sprintf_config_url]
    rfl
  · rw [HealthCheck_world, ← Sprintf_healthcheck_url]
    rfl

/-! ## When the decoder fails -/

theorem storeString_spec (v : JSON) (old : String) :
    (stringMismatch v = true →
      ∃ e, storeString v old = .error e ∧ e.isDecodeError = true) ∧
    (stringMismatch v = false → ∃ x, storeString v old = .ok x) := by
  cases v <;> simp [stringMismatch, storeString, GoError.isDecodeError]

theorem storeBool_spec (v : JSON) (old : Bool) :
    (boolMismatch v = true →
      ∃ e, storeBool v old = .error e ∧ e.isDecodeError = true) ∧
    (boolMismatch v = false → ∃ x, storeBool v old = .ok x) := by
  cases v <;> simp [boolMismatch, storeBool, GoError.isDecodeError]

theorem storeElems_spec (elems : List JSON) (backing : List String) :
    (elems.any stringMismatch = true →
      ∃ e, storeElems elems backing = .error e ∧ e.isDecodeError = true) ∧
    (elems.any stringMismatch = false → ∃ x, storeElems elems backing = .ok x) := by
  induction elems generalizing backing with
  | nil => exact ⟨fun h => by simp at h, fun _ => ⟨[], rfl⟩⟩
  | cons v elems ih =>
    rw [List.any_cons]
    rcases hv : stringMismatch v with _ | _
    · obtain ⟨x, hx⟩ := (storeString_spec v (backing.headD "")).2 hv
      rcases hrest : elems.any stringMismatch with _ | _
      · obtain ⟨xs, hxs⟩ := (ih backing.tail).2 hrest
        refine ⟨fun h => by simp at h, fun _ => ⟨x :: xs, ?_⟩⟩
        simp only [storeElems, hx, hxs]; rfl
      · obtain ⟨e, he, hde⟩ := (ih backing.tail).1 hrest
        refine ⟨fun _ => ⟨e, ?_, hde⟩, fun h => by simp at h⟩
        simp only [storeElems, hx, he]; rfl
    · obtain ⟨e, he, hde⟩ := (storeString_spec v (backing.headD "")).1 hv
      refine ⟨fun _ => ⟨e, ?_, hde⟩, fun h => by simp at h⟩
      simp only [storeElems, he]; rfl

theorem storeKind_spec (k : GoKind) (v : JSON) (old : k.type) :
    (kindMismatch k v = true → ∃ e, storeKind k v old = .error e ∧ e.isDecodeError = true) ∧
    (kindMismatch k v = false → ∃ x, storeKind k v old = .ok x) := by
  cases k with
  | bool => exact storeBool_spec v old
  | string => exact storeString_spec v old
  | stringSlice =>
    cases v with
    | arr elems =>
      cases elems with
      | nil => exact ⟨fun h => by simp [kindMismatch] at h, fun _ => ⟨_, rfl⟩⟩
      | cons e es =>
        have hold : ∀ o : StringSlice,
            (kindMismatch .stringSlice (.arr (e :: es)) = true →
              ∃ err, storeStringSlice (.arr (e :: es)) o = .error err ∧
                err.isDecodeError = true) ∧
            (kindMismatch .stringSlice (.arr (e :: es)) = false →
              ∃ x, storeStringSlice (.arr (e :: es)) o = .ok x) := by
          intro o
          constructor
          · intro h
            obtain ⟨err, herr, hde⟩ := (storeElems_spec (e :: es) (o.elems ++ o.spare)).1 h
            exact ⟨err, by simp only [storeStringSlice, herr]; rfl, hde⟩
          · intro h
            obtain ⟨xs, hxs⟩ := (storeElems_spec (e :: es) (o.elems ++ o.spare)).2 h
            exact ⟨_, by simp only [storeStringSlice, hxs]; rfl⟩
        exact hold old
    | _ => simp [kindMismatch, storeKind, storeStringSlice, GoError.isDecodeError]

theorem Field.store_spec {T : Type} (f : Field T) (v : JSON) (t : T) :
    (kindMismatch f.kind v = true → ∃ e, f.store v t = .error e ∧ e.isDecodeError = true) ∧
    (kindMismatch f.kind v = false → ∃ x, f.store v t = .ok x) := by
  constructor
  · intro h
    obtain ⟨e, he, hde⟩ := (storeKind_spec f.kind v (f.get t)).1 h
    exact ⟨e, by simp only [Field.store, he]; rfl, hde⟩
  · intro h
    obtain ⟨x, hx⟩ := (storeKind_spec f.kind v (f.get t)).2 h
    exact ⟨f.set t x, by simp only [Field.store, hx]; rfl⟩

theorem storeMembers_cons_ok {T : Type} (fields : List (Field T)) (kv : String × JSON)
    (members : List (String × JSON)) (t t' : T)
    (h : (match findField fields kv.1 with
      | some f => f.store kv.2 t
      | none => Except.ok t) = Except.ok t') :
    storeMembers fields (kv :: members) t = storeMembers fields members t' := by
  simp only [storeMembers, List.foldlM, h]
  rfl

theorem storeMembers_cons_error {T : Type} (fields : List (Field T)) (kv : String × JSON)
    (members : List (String × JSON)) (t : T) (e : GoError)
    (h : (match findField fields kv.1 with
      | some f => f.store kv.2 t
      | none => Except.ok t) = Except.error e) :
    storeMembers fields (kv :: members) t = Except.error e := by
  simp only [storeMembers, List.foldlM, h]
  rfl

theorem findField_mem {T : Type} (fields : List (Field T)) (k : String) (f : Field T)
    (h : findField fields k = some f) : f ∈ fields := by
  unfold findField at h
  split at h
  · rename_i g hg
    cases h
    exact List.mem_of_find?_eq_some hg
  · exact List.mem_of_find?_eq_some h

theorem storeMembers_spec {T : Type} (fields : List (Field T)) (members : List (String × JSON))
    (t : T) :
    (members.any (memberMismatch fields) = true →
      ∃ e, storeMembers fields members t = .error e ∧ e.isDecodeError = true) ∧
    (members.any (memberMismatch fields) = false →
      ∃ x, storeMembers fields members t = .ok x) := by
  induction members generalizing t with
  | nil => exact ⟨fun h => by simp at h, fun _ => ⟨t, rfl⟩⟩
  | cons kv members ih =>
    have hstep := storeMembers_cons_ok fields kv members t
    have hfail := storeMembers_cons_error fields kv members t
    rw [List.any_cons]
    rcases hf : findField fields kv.1 with _ | f
    · have hm : memberMismatch fields kv = false := by simp [memberMismatch, hf]
      rw [hm, Bool.false_or, hstep t (by rw [hf])]
      exact ih t
    · rcases hk : kindMismatch f.kind kv.2 with _ | _
      · have hm : memberMismatch fields kv = false := by simp [memberMismatch, hf, hk]
        obtain ⟨x, hx⟩ := (f.store_spec kv.2 t).2 hk
        rw [hm, Bool.false_or, hstep x (by rw [hf]; exact hx)]
        exact ih x
      · have hm : memberMismatch fields kv = true := by simp [memberMismatch, hf, hk]
        obtain ⟨e, he, hde⟩ := (f.store_spec kv.2 t).1 hk
        rw [hm, Bool.true_or, hfail e (by rw [hf]; exact he)]
        exact ⟨fun _ => ⟨e, rfl, hde⟩, fun h => by simp at h⟩

theorem storeStruct_spec {T : Type} (typeName : String) (fields : List (Field T)) (v : JSON)
    (t : T) :
    (structMismatch fields v = true →
      ∃ e, storeStruct typeName fields v t = .error e ∧ e.isDecodeError = true) ∧
    (structMismatch fields v = false → ∃ x, storeStruct typeName fields v t = .ok x) := by
  cases v with
  | obj members => exact storeMembers_spec fields members t
  | _ => simp [structMismatch, storeStruct, GoError.isDecodeError]

/-- A record that repeats a `[]string` member: the later array is decoded
into the strings the earlier one left, so a null element keeps the old string
and a longer array brings back what the backing array still holds. -/
theorem decodeRecord_repeated_slice :
    (decodeRecord (.obj [("supported_filetypes", .arr [.str "a", .str "b"]),
        ("supported_filetypes", .arr [.null])])).toOption.map
          (fun r => r.SupportedFiletypes) =
      some { elems := ["a"], spare := ["b"], isNil := false } ∧
    (decodeRecord (.obj [("supported_filetypes", .arr [.str "a", .str "b"]),
        ("supported_filetypes", .arr [.null]),
        ("supported_filetypes", .arr [.null, .null, .null])])).toOption.map
          (fun r => r.SupportedFiletypes) =
      some { elems := ["a", "b", ""], spare := [], isNil := false } ∧
    (decodeRecord (.obj [("supported_filetypes", .arr [.str "a"]),
        ("supported_filetypes", .arr [])])).toOption.map
          (fun r => r.SupportedFiletypes) =
      some { elems := [], spare := [], isNil := false } :=
  ⟨rfl, rfl, rfl⟩

theorem unmarshalStatusResponse_spec (data : Payload) (status : StatusResponse) :
    (statusMalformed data = true →
      ∃ e, unmarshalStatusResponse data status = .error e ∧ e.isDecodeError = true) ∧
    (statusMalformed data = false → ∃ x, unmarshalStatusResponse data status = .ok x) := by
  cases data with
  | malformed => simp [statusMalformed, unmarshalStatusResponse, GoError.isDecodeError]
  | wellFormed v =>
    exact storeStruct_spec "gointelowl.StatusResponse" statusResponseFields v status

theorem status_store_null (k : String) (f : Field StatusResponse) (t : StatusResponse)
    (h : findField statusResponseFields k = some f) : f.store .null t = .ok t := by
  have hm := findField_mem statusResponseFields k f h
  simp only [statusResponseFields, List.mem_singleton] at hm
  subst hm
  rfl

theorem storeMembers_status_missing (members : List (String × JSON)) (t : StatusResponse)
    (h : members.all (fun kv =>
      (findField statusResponseFields kv.1).isNone ||
        (match kv.2 with
          | .null => true
          | _ => false)) = true) :
    storeMembers statusResponseFields members t = .ok t := by
  induction members with
  | nil => rfl
  | cons kv members ih =>
    rw [List.all_cons, Bool.and_eq_true] at h
    rw [storeMembers_cons_ok statusResponseFields kv members t t ?_]
    · exact ih h.2
    · rcases hf : findField statusResponseFields kv.1 with _ | f
      · rfl
      · have h1 := h.1
        rw [hf] at h1
        simp only [Option.isNone, Bool.false_or] at h1
        obtain ⟨k, v⟩ := kv
        cases v <;> simp at h1
        exact status_store_null k f t hf

theorem unmarshalStatusResponse_missing (data : Payload) (t : StatusResponse)
    (h : statusMissing data = true) : unmarshalStatusResponse data t = .ok t := by
  cases data with
  | malformed => simp [statusMissing] at h
  | wellFormed v =>
    cases v with
    | null => rfl
    | obj members => exact storeMembers_status_missing members t h
    | _ => simp [statusMissing] at h

/-! ## Claims on decode failures -/

/-- Claim C3, as amended.  When the request builds and the executor
succeeds: a body whose status is malformed (not a JSON text, neither an
object nor null, or a value under `status` that is neither a boolean nor
null) makes `HealthCheck` return false with a decode error; a body without a
status (null, or an object whose members go to no field or are null) makes
it return false with a nil error. -/
theorem HealthCheck_status_decoding (s : AnalyzerService) (ctx : Context) (name : String)
    (w w₁ w₂ : World) (request : Request) (resp : SuccessResponse)
    (hb : s.buildHealthCheck ctx name w = (.ok request, w₁))
    (hs : s.client.newRequest ctx request w₁ = (.ok resp, w₂)) :
    (statusMalformed resp.Data = true →
      ∃ e, (s.HealthCheck ctx name w).1 = (false, some e) ∧ e.isDecodeError = true) ∧
    (statusMissing resp.Data = true → (s.HealthCheck ctx name w).1 = (false, none)) := by
  constructor
  · intro h
    obtain ⟨e, he, hde⟩ := (unmarshalStatusResponse_spec resp.Data { Status := false }).1 h
    exact ⟨e, by rw [HealthCheck_decode_error s ctx name w w₁ w₂ request resp e hb hs he], hde⟩
  · intro h
    have hd := unmarshalStatusResponse_missing resp.Data { Status := false } h
    rw [HealthCheck_decoded s ctx name w w₁ w₂ request resp _ hb hs hd]

/-- Claim C3, as amended, at a body whose status is a string. -/
theorem HealthCheck_status_decoding_witness :
    ∃ e, (AnalyzerService.HealthCheck
        { client := answeringClient "http://owl" (.wellFormed (.obj [("status", .str "up")])) }
        { id := 0 } "Yara" []).1 = (false, some e) ∧ e.isDecodeError = true :=
  (HealthCheck_status_decoding
    { client := answeringClient "http://owl" (.wellFormed (.obj [("status", .str "up")])) }
    { id := 0 } "Yara" [] _ _ _ _ rfl rfl).1 rfl

/-- Claim C3 fails as stated: for the bodies `{}` and `{"error":"x"}`, which
have no status, and for `{"status": null}`, `HealthCheck` returns
`(false, nil)`. -/
theorem HealthCheck_missing_status_no_error :
    (AnalyzerService.HealthCheck
        { client := answeringClient "http://owl" (.wellFormed (.obj [])) }
        { id := 0 } "Yara" []).1 = (false, none) ∧
    (AnalyzerService.HealthCheck
        { client := answeringClient "http://owl" (.wellFormed (.obj [("error", .str "x")])) }
        { id := 0 } "Yara" []).1 = (false, none) ∧
    (AnalyzerService.HealthCheck
        { client := answeringClient "http://owl" (.wellFormed (.obj [("status", .null)])) }
        { id := 0 } "Yara" []).1 = (false, none) :=
  ⟨rfl, rfl, rfl⟩

end gointelowl
